import Mathlib

/-
Verification of the adbfs core against its natural-language specification.

This file gives a shallow embedding, in Lean 4, of the load-bearing parts of
the adbfs repository:

* the directory-listing wire decoder (`DirEntries` / `readNextDirListEntry`
  from the goadb package sources),
* the caching device client (`CachingDeviceClient.Stat`, `OpenWrite`,
  `onCloseWriter`), including faithful models of Go's `path.Clean`,
  `path.Dir` and `path.Base`,
* the goadb device client's disconnect detection (`goadbDeviceClient`),
* the write-once `LogEntry` record,
* the unmount-on-disconnect logic (`unmountServer` /
  `handleDeviceDisconnected`) as an interleaved small-step system.

Effectful Go code is modelled by explicit state passing: the wire scanner is a
state with a token list plus read/close counters, panics become `Except.error`,
and remote/cache interactions are recorded in explicit effect logs so that
"never calls the underlying client"-style statements are expressible.
-/

namespace Adbfs

/-! ## Wire decoder (goadb dir_entries)

The decoder consumes a `wire.SyncScanner`. The transport is out of scope of
the spec, so the scanner is modelled as a stream of already-framed primitive
values (`Tok`): each `Read*` call consumes the next token of the stream.
`rerr` injects a transport-level read failure.  The scanner also counts how
many read attempts were issued (`reads`) and how many times it was closed
(`closes`); reading a closed scanner fails without consuming a token, as a
read on a closed connection does. -/

/-- Errors produced by the scanner and by `readNextDirListEntry`.  The Go code
builds error strings with `fmt.Errorf`; the constructors keep the variable
parts structured and `render` recovers the message text. -/
inductive ErrMsg where
  | transport (s : String)
  | closed
  | eofErr
  | wrongTok
  | unexpectedId (id : String)
  | fieldCtx (field : String) (cause : ErrMsg)
deriving DecidableEq

/-- Message text of an `ErrMsg`, following the `fmt.Errorf` format strings in
the source. -/
def ErrMsg.render : ErrMsg → String
  | .transport s => s
  | .closed => "EOF"
  | .eofErr => "EOF"
  | .wrongTok => "unexpected value type in stream"
  | .unexpectedId id =>
      "error reading dir entries: expected dir entry ID 'DENT', but got '" ++ id ++ "'"
  | .fieldCtx field cause =>
      "error reading dir entries: error reading " ++ field ++ ": " ++ cause.render

/-- One framed primitive value delivered by the wire scanner. -/
inductive Tok where
  | octet (s : String)
  | fmode (m : Nat)
  | int32 (n : Int)
  | time (t : Nat)
  | str (s : String)
  | rerr (e : String)
deriving DecidableEq

/-- Model of `wire.SyncScanner`: the remaining framed values, the number of
read attempts issued so far, and the number of `Close` calls so far. -/
structure SyncScanner where
  toks : List Tok
  reads : Nat
  closes : Nat
deriving DecidableEq

def SyncScanner.Close (s : SyncScanner) : SyncScanner :=
  { s with closes := s.closes + 1 }

/-- One raw read attempt: fails if the scanner is closed, or at end of
stream, or on an injected transport error; otherwise consumes one token. -/
def SyncScanner.readTok (s : SyncScanner) : Except ErrMsg Tok × SyncScanner :=
  let s1 := { s with reads := s.reads + 1 }
  if s.closes > 0 then (.error .closed, s1)
  else
    match s.toks with
    | [] => (.error .eofErr, s1)
    | t :: rest =>
      match t with
      | .rerr e => (.error (.transport e), { s1 with toks := rest })
      | t => (.ok t, { s1 with toks := rest })

def SyncScanner.ReadOctetString (s : SyncScanner) : Except ErrMsg String × SyncScanner :=
  match s.readTok with
  | (.ok (.octet v), s1) => (.ok v, s1)
  | (.ok _, s1) => (.error .wrongTok, s1)
  | (.error e, s1) => (.error e, s1)

def SyncScanner.ReadFileMode (s : SyncScanner) : Except ErrMsg Nat × SyncScanner :=
  match s.readTok with
  | (.ok (.fmode v), s1) => (.ok v, s1)
  | (.ok _, s1) => (.error .wrongTok, s1)
  | (.error e, s1) => (.error e, s1)

def SyncScanner.ReadInt32 (s : SyncScanner) : Except ErrMsg Int × SyncScanner :=
  match s.readTok with
  | (.ok (.int32 v), s1) => (.ok v, s1)
  | (.ok _, s1) => (.error .wrongTok, s1)
  | (.error e, s1) => (.error e, s1)

def SyncScanner.ReadTime (s : SyncScanner) : Except ErrMsg Nat × SyncScanner :=
  match s.readTok with
  | (.ok (.time v), s1) => (.ok v, s1)
  | (.ok _, s1) => (.error .wrongTok, s1)
  | (.error e, s1) => (.error e, s1)

def SyncScanner.ReadString (s : SyncScanner) : Except ErrMsg String × SyncScanner :=
  match s.readTok with
  | (.ok (.str v), s1) => (.ok v, s1)
  | (.ok _, s1) => (.error .wrongTok, s1)
  | (.error e, s1) => (.error e, s1)

/-- `DirEntry` from the goadb sources: name, file mode, 32-bit signed size,
modification time. -/
structure DirEntry where
  name : String
  mode : Nat
  size : Int
  modifiedAt : Nat
deriving DecidableEq

/-- `readNextDirListEntry` from the goadb sources, translated clause by
clause: read a 4-byte id; `DONE` ends the listing; anything other than
`DENT` is a protocol error carrying the offending tag; otherwise read mode,
size, mtime and name in order, wrapping any field-read failure with that
field's context. -/
def readNextDirListEntry (s : SyncScanner) :
    (Option DirEntry × Bool × Option ErrMsg) × SyncScanner :=
  match s.ReadOctetString with
  | (.error e, s1) => ((none, false, some e), s1)
  | (.ok id, s1) =>
    if id = "DONE" then ((none, true, none), s1)
    else if id ≠ "DENT" then ((none, false, some (.unexpectedId id)), s1)
    else
      match s1.ReadFileMode with
      | (.error e, s2) => ((none, false, some (.fieldCtx "file mode" e)), s2)
      | (.ok mode, s2) =>
        match s2.ReadInt32 with
        | (.error e, s3) => ((none, false, some (.fieldCtx "file size" e)), s3)
        | (.ok size, s3) =>
          match s3.ReadTime with
          | (.error e, s4) => ((none, false, some (.fieldCtx "file time" e)), s4)
          | (.ok mtime, s4) =>
            match s4.ReadString with
            | (.error e, s5) => ((none, false, some (.fieldCtx "file name" e)), s5)
            | (.ok nm, s5) => ((some ⟨nm, mode, size, mtime⟩, false, none), s5)

/-- `DirEntries` from the goadb sources: the scanner plus the current entry
and the sticky error. -/
structure DirEntries where
  scanner : SyncScanner
  currentEntry : Option DirEntry
  err : Option ErrMsg
deriving DecidableEq

/-- `DirEntries.Close`: closes the scanner. -/
def DirEntries.Close (d : DirEntries) : DirEntries :=
  { d with scanner := d.scanner.Close }

def DirEntries.Entry (d : DirEntries) : Option DirEntry :=
  d.currentEntry

def DirEntries.Err (d : DirEntries) : Option ErrMsg :=
  d.err

/-- `DirEntries.Next`, translated clause by clause: a sticky error makes it
return `false` immediately; otherwise decode one record; on a decode error
record it, close, and return `false`; on `DONE` store the (nil) entry, close,
and return `false`; otherwise store the entry and return `true`. -/
def DirEntries.Next (d : DirEntries) : Bool × DirEntries :=
  if d.err.isSome then (false, d)
  else
    match readNextDirListEntry d.scanner with
    | ((entry, done, err), s1) =>
      match err with
      | some e =>
        (false, DirEntries.Close { scanner := s1, currentEntry := d.currentEntry, err := some e })
      | none =>
        let d1 : DirEntries := { scanner := s1, currentEntry := entry, err := none }
        if done then (false, d1.Close) else (true, d1)

/-- The standard driving loop over a `DirEntries`: call `Next` until it
returns `false`, collecting `Entry()` after every `true`.  `fuel` bounds the
number of `Next` calls; every theorem instantiates it large enough. -/
def drive : Nat → DirEntries → List DirEntry × DirEntries
  | 0, d => ([], d)
  | fuel + 1, d =>
    let p := d.Next
    if p.1 then
      let rest := drive fuel p.2
      (match p.2.Entry with
       | some e => e :: rest.1
       | none => rest.1,
       rest.2)
    else ([], p.2)

/-- Token encoding of one well-formed `DENT` record. -/
def encodeDent (e : DirEntry) : List Tok :=
  [.octet "DENT", .fmode e.mode, .int32 e.size, .time e.modifiedAt, .str e.name]

/-- Token encoding of a sequence of well-formed `DENT` records. -/
def encodeDents : List DirEntry → List Tok
  | [] => []
  | e :: rest => encodeDent e ++ encodeDents rest

/-- A fresh `DirEntries` over a given token stream. -/
def openEntries (toks : List Tok) : DirEntries :=
  ⟨⟨toks, 0, 0⟩, none, none⟩

/-- The `currentEntry` value after decoding a list of records, starting from
`c`: the last decoded record, or `c` if none were decoded. -/
def lastCE : List DirEntry → Option DirEntry → Option DirEntry
  | [], c => c
  | e :: rest, _ => lastCE rest (some e)

theorem next_dent (m : Nat) (sz : Int) (t : Nat) (nm : String) (tail : List Tok)
    (r : Nat) (c : Option DirEntry) :
    DirEntries.Next ⟨⟨Tok.octet "DENT" :: .fmode m :: .int32 sz :: .time t :: .str nm :: tail, r, 0⟩, c, none⟩
      = (true, ⟨⟨tail, r + 5, 0⟩, some ⟨nm, m, sz, t⟩, none⟩) := by
  rfl

theorem next_done (tail : List Tok) (r : Nat) (c : Option DirEntry) :
    DirEntries.Next ⟨⟨Tok.octet "DONE" :: tail, r, 0⟩, c, none⟩
      = (false, ⟨⟨tail, r + 1, 1⟩, none, none⟩) := by
  rfl

theorem next_badid (id : String) (tail : List Tok) (r : Nat) (c : Option DirEntry)
    (h1 : id ≠ "DONE") (h2 : id ≠ "DENT") :
    DirEntries.Next ⟨⟨Tok.octet id :: tail, r, 0⟩, c, none⟩
      = (false, ⟨⟨tail, r + 1, 1⟩, c, some (.unexpectedId id)⟩) := by
  simp [DirEntries.Next, readNextDirListEntry, SyncScanner.ReadOctetString,
    SyncScanner.readTok, h1, h2, DirEntries.Close, SyncScanner.Close]

theorem next_sticky_err (d : DirEntries) (h : d.err.isSome) :
    d.Next = (false, d) := by
  simp [DirEntries.Next, h]

/-- Driving the decoder over `encodeDents es ++ tl` first yields all of `es`,
then continues into `tl` with five reads consumed per record. -/
theorem drive_encodeDents (es : List DirEntry) :
    ∀ (k : Nat) (tl : List Tok) (c : Option DirEntry) (r : Nat),
    drive (es.length + 1 + k) ⟨⟨encodeDents es ++ tl, r, 0⟩, c, none⟩ =
      (es ++ (drive (k + 1) ⟨⟨tl, r + 5 * es.length, 0⟩, lastCE es c, none⟩).1,
       (drive (k + 1) ⟨⟨tl, r + 5 * es.length, 0⟩, lastCE es c, none⟩).2) := by
  induction es with
  | nil =>
    intro k tl c r
    simp [encodeDents, lastCE, Nat.add_comm]
  | cons e rest ih =>
    intro k tl c r
    have hfuel : (e :: rest).length + 1 + k = (rest.length + 1 + k) + 1 := by
      simp [List.length_cons]; omega
    rw [hfuel]
    show drive ((rest.length + 1 + k) + 1)
        ⟨⟨encodeDents (e :: rest) ++ tl, r, 0⟩, c, none⟩ = _
    have henc : encodeDents (e :: rest) ++ tl =
        Tok.octet "DENT" :: .fmode e.mode :: .int32 e.size :: .time e.modifiedAt
          :: .str e.name :: (encodeDents rest ++ tl) := by
      simp [encodeDents, encodeDent]
    rw [henc]
    rw [drive]
    rw [next_dent]
    simp only []
    rw [ih k tl (some e) (r + 5)]
    have harith : r + 5 + 5 * rest.length = r + 5 * (e :: rest).length := by
      simp [List.length_cons]; ring
    rw [harith]
    have hce : lastCE (e :: rest) c = lastCE rest (some e) := rfl
    rw [hce]
    simp [DirEntries.Entry]

theorem readTok_spec (s : SyncScanner) (h : s.closes = 0) :
    s.readTok.2.closes = 0 ∧ s.readTok.2.toks.length ≤ s.toks.length ∧
    (∀ t, s.readTok.1 = .ok t → s.readTok.2.toks.length + 1 = s.toks.length) := by
  cases hts : s.toks with
  | nil => simp [SyncScanner.readTok, h, hts]
  | cons t rest => cases t <;> simp [SyncScanner.readTok, h, hts]

theorem ReadOctetString_spec (s : SyncScanner) (h : s.closes = 0) :
    s.ReadOctetString.2.closes = 0 ∧ s.ReadOctetString.2.toks.length ≤ s.toks.length ∧
    (∀ v, s.ReadOctetString.1 = .ok v → s.ReadOctetString.2.toks.length + 1 = s.toks.length) := by
  have hr := readTok_spec s h
  unfold SyncScanner.ReadOctetString
  rcases hq : s.readTok with ⟨res, s1⟩
  rw [hq] at hr
  cases res with
  | error e => simpa using hr
  | ok t => cases t <;> simp_all

theorem ReadFileMode_spec (s : SyncScanner) (h : s.closes = 0) :
    s.ReadFileMode.2.closes = 0 ∧ s.ReadFileMode.2.toks.length ≤ s.toks.length ∧
    (∀ v, s.ReadFileMode.1 = .ok v → s.ReadFileMode.2.toks.length + 1 = s.toks.length) := by
  have hr := readTok_spec s h
  unfold SyncScanner.ReadFileMode
  rcases hq : s.readTok with ⟨res, s1⟩
  rw [hq] at hr
  cases res with
  | error e => simpa using hr
  | ok t => cases t <;> simp_all

theorem ReadInt32_spec (s : SyncScanner) (h : s.closes = 0) :
    s.ReadInt32.2.closes = 0 ∧ s.ReadInt32.2.toks.length ≤ s.toks.length ∧
    (∀ v, s.ReadInt32.1 = .ok v → s.ReadInt32.2.toks.length + 1 = s.toks.length) := by
  have hr := readTok_spec s h
  unfold SyncScanner.ReadInt32
  rcases hq : s.readTok with ⟨res, s1⟩
  rw [hq] at hr
  cases res with
  | error e => simpa using hr
  | ok t => cases t <;> simp_all

theorem ReadTime_spec (s : SyncScanner) (h : s.closes = 0) :
    s.ReadTime.2.closes = 0 ∧ s.ReadTime.2.toks.length ≤ s.toks.length ∧
    (∀ v, s.ReadTime.1 = .ok v → s.ReadTime.2.toks.length + 1 = s.toks.length) := by
  have hr := readTok_spec s h
  unfold SyncScanner.ReadTime
  rcases hq : s.readTok with ⟨res, s1⟩
  rw [hq] at hr
  cases res with
  | error e => simpa using hr
  | ok t => cases t <;> simp_all

theorem ReadString_spec (s : SyncScanner) (h : s.closes = 0) :
    s.ReadString.2.closes = 0 ∧ s.ReadString.2.toks.length ≤ s.toks.length ∧
    (∀ v, s.ReadString.1 = .ok v → s.ReadString.2.toks.length + 1 = s.toks.length) := by
  have hr := readTok_spec s h
  unfold SyncScanner.ReadString
  rcases hq : s.readTok with ⟨res, s1⟩
  rw [hq] at hr
  cases res with
  | error e => simpa using hr
  | ok t => cases t <;> simp_all

/-- Decoding one record from an unclosed scanner leaves it unclosed, and a
successful entry decode consumes exactly five reads' worth of tokens. -/
theorem readNext_spec (s : SyncScanner) (h : s.closes = 0) :
    (readNextDirListEntry s).2.closes = 0 ∧
    ((readNextDirListEntry s).1.2.2 = none → (readNextDirListEntry s).1.2.1 = false →
      (readNextDirListEntry s).2.toks.length + 5 = s.toks.length ∧
      ∃ e, (readNextDirListEntry s).1.1 = some e) := by
  unfold readNextDirListEntry
  rcases h1 : s.ReadOctetString with ⟨r1, s1⟩
  have hs1 := ReadOctetString_spec s h
  rw [h1] at hs1
  cases r1 with
  | error e => exact ⟨hs1.1, by simp⟩
  | ok id =>
    dsimp only
    have hc1 : s1.closes = 0 := hs1.1
    have he1 : s1.toks.length + 1 = s.toks.length := hs1.2.2 id rfl
    by_cases hdone : id = "DONE"
    · subst hdone
      simp [hc1]
    · rw [if_neg hdone]
      by_cases hdent : id = "DENT"
      · subst hdent
        rw [if_neg (by simp)]
        rcases h2 : s1.ReadFileMode with ⟨r2, s2⟩
        have hs2 := ReadFileMode_spec s1 hc1
        rw [h2] at hs2
        cases r2 with
        | error e => exact ⟨hs2.1, by simp⟩
        | ok mode =>
          dsimp only
          have hc2 : s2.closes = 0 := hs2.1
          have he2 : s2.toks.length + 1 = s1.toks.length := hs2.2.2 mode rfl
          rcases h3 : s2.ReadInt32 with ⟨r3, s3⟩
          have hs3 := ReadInt32_spec s2 hc2
          rw [h3] at hs3
          cases r3 with
          | error e => exact ⟨hs3.1, by simp⟩
          | ok size =>
            dsimp only
            have hc3 : s3.closes = 0 := hs3.1
            have he3 : s3.toks.length + 1 = s2.toks.length := hs3.2.2 size rfl
            rcases h4 : s3.ReadTime with ⟨r4, s4⟩
            have hs4 := ReadTime_spec s3 hc3
            rw [h4] at hs4
            cases r4 with
            | error e => exact ⟨hs4.1, by simp⟩
            | ok mtime =>
              dsimp only
              have hc4 : s4.closes = 0 := hs4.1
              have he4 : s4.toks.length + 1 = s3.toks.length := hs4.2.2 mtime rfl
              rcases h5 : s4.ReadString with ⟨r5, s5⟩
              have hs5 := ReadString_spec s4 hc4
              rw [h5] at hs5
              cases r5 with
              | error e => exact ⟨hs5.1, by simp⟩
              | ok nm =>
                dsimp only
                have hc5 : s5.closes = 0 := hs5.1
                have he5 : s5.toks.length + 1 = s4.toks.length := hs5.2.2 nm rfl
                exact ⟨hc5, fun _ _ => ⟨by omega, ⟨⟨nm, mode, size, mtime⟩, rfl⟩⟩⟩
      · rw [if_pos hdent]
        exact ⟨hc1, by simp⟩

/-- One `Next` call on a live decoder either terminates having closed the
scanner exactly once, or yields an entry, leaving the scanner unclosed and
five tokens shorter. -/
theorem Next_spec (d : DirEntries) (h0 : d.scanner.closes = 0) (h1 : d.err = none) :
    (d.Next.1 = false ∧ d.Next.2.scanner.closes = 1) ∨
    (d.Next.1 = true ∧ d.Next.2.scanner.closes = 0 ∧ d.Next.2.err = none ∧
      d.Next.2.scanner.toks.length + 5 = d.scanner.toks.length) := by
  unfold DirEntries.Next
  rcases hr : readNextDirListEntry d.scanner with ⟨⟨entry, done, err⟩, s1⟩
  have hs := readNext_spec d.scanner h0
  rw [hr] at hs
  have hc : s1.closes = 0 := hs.1
  cases err with
  | some e =>
    left
    simp [h1, DirEntries.Close, SyncScanner.Close, hc]
  | none =>
    cases done with
    | true =>
      left
      simp [h1, DirEntries.Close, SyncScanner.Close, hc]
    | false =>
      right
      have hlen : s1.toks.length + 5 = d.scanner.toks.length := (hs.2 rfl rfl).1
      simp [h1, hc, hlen]

/-- Driving a live decoder with enough fuel closes the scanner exactly
once. -/
theorem drive_closes :
    ∀ (n : Nat) (d : DirEntries), d.scanner.closes = 0 → d.err = none →
      d.scanner.toks.length ≤ n → ((drive (n + 1) d).2).scanner.closes = 1 := by
  intro n
  induction n using Nat.strong_induction_on with
  | _ n ih =>
    intro d h0 h1 hlen
    rw [drive]
    rcases Next_spec d h0 h1 with ⟨hf, hc⟩ | ⟨ht, hc0, he, hlen5⟩
    · simp [hf, hc]
    · simp only [ht, if_true]
      cases n with
      | zero => omega
      | succ m =>
        exact ih m (by omega) d.Next.2 hc0 he (by omega)

/-- Claim C1: for every finite stream of n well-formed DENT records followed
by one DONE record, iterating the decoder with `Next` yields exactly those n
entries in stream order, with each entry's name, mode, size and mtime taken
from its record, and afterwards `Err` returns nil. -/
theorem c1_decoder_yields_all_entries_then_clean_stop (es : List DirEntry) :
    (drive (es.length + 1) (openEntries (encodeDents es ++ [.octet "DONE"]))).1 = es ∧
    ((drive (es.length + 1) (openEntries (encodeDents es ++ [.octet "DONE"]))).2).Err = none := by
  have h := drive_encodeDents es 0 [Tok.octet "DONE"] none 0
  simp only [Nat.add_zero, Nat.zero_add] at h
  have h2 : drive 1 ⟨⟨[Tok.octet "DONE"], 5 * es.length, 0⟩, lastCE es none, none⟩
      = ([], ⟨⟨[], 5 * es.length + 1, 1⟩, none, none⟩) := by
    simp [drive, next_done]
  rw [h2] at h
  unfold openEntries
  rw [h]
  simp [DirEntries.Err]

/-- Claim C2 counterexample: after the decoder has terminated by reading
DONE (sticky error still nil), the next `Next` call does issue a further
read attempt on the underlying (closed) scanner: the read counter
increments. -/
theorem c2_counterexample_read_after_done :
    ((openEntries [Tok.octet "DONE"]).Next.2).err = none ∧
    ((openEntries [Tok.octet "DONE"]).Next.2).Next.1 = false ∧
    ((openEntries [Tok.octet "DONE"]).Next.2).Next.2.scanner.reads
      = ((openEntries [Tok.octet "DONE"]).Next.2).scanner.reads + 1 := by
  decide

/-- Claim C2 (amended): every post-termination `Next` call returns false;
after an error termination the state is untouched and no read is issued, but
after a DONE termination the immediately following `Next` call issues one
further (failing) read on the closed scanner, which sets the sticky error;
from then on no further reads occur. -/
theorem c2_amended_post_termination (d : DirEntries) :
    (d.err.isSome = true → d.Next = (false, d)) ∧
    (d.err = none → 0 < d.scanner.closes →
      d.Next.1 = false ∧ d.Next.2.err.isSome = true ∧
      d.Next.2.scanner.reads = d.scanner.reads + 1 ∧
      d.Next.2.scanner.toks = d.scanner.toks) := by
  constructor
  · exact fun h => next_sticky_err d h
  · intro h1 h2
    simp [DirEntries.Next, readNextDirListEntry, SyncScanner.ReadOctetString,
      SyncScanner.readTok, h1, h2, DirEntries.Close, SyncScanner.Close]

theorem c2_amended_witness :
    DirEntries.Next ⟨⟨[], 3, 1⟩, none, some ErrMsg.closed⟩
      = (false, ⟨⟨[], 3, 1⟩, none, some ErrMsg.closed⟩) ∧
    ((openEntries [Tok.octet "DONE"]).Next.2).Next.1 = false ∧
    ((openEntries [Tok.octet "DONE"]).Next.2).Next.2.err.isSome = true := by
  refine ⟨(c2_amended_post_termination _).1 (by decide), ?_, ?_⟩
  · exact ((c2_amended_post_termination ((openEntries [Tok.octet "DONE"]).Next.2)).2
      (by decide) (by decide)).1
  · exact ((c2_amended_post_termination ((openEntries [Tok.octet "DONE"]).Next.2)).2
      (by decide) (by decide)).2.1

/-- Claim C7: a stream whose next record tag is a 4-character string other
than DENT and DONE yields all entries decoded before the malformed record,
then terminates with a protocol error whose message includes the offending
tag, and further `Next` calls produce nothing. -/
theorem c7_malformed_tag_aborts (es : List DirEntry) (tag : String) (rest : List Tok)
    (_hlen : tag.length = 4) (hdent : tag ≠ "DENT") (hdone : tag ≠ "DONE") :
    (drive (es.length + 1) (openEntries (encodeDents es ++ .octet tag :: rest))).1 = es ∧
    ((drive (es.length + 1) (openEntries (encodeDents es ++ .octet tag :: rest))).2).Err
      = some (.unexpectedId tag) ∧
    (∃ a b, (ErrMsg.unexpectedId tag).render = a ++ tag ++ b) ∧
    ((drive (es.length + 1) (openEntries (encodeDents es ++ .octet tag :: rest))).2).Next
      = (false, (drive (es.length + 1) (openEntries (encodeDents es ++ .octet tag :: rest))).2) := by
  have h := drive_encodeDents es 0 (Tok.octet tag :: rest) none 0
  simp only [Nat.add_zero, Nat.zero_add] at h
  have h2 : drive 1 ⟨⟨Tok.octet tag :: rest, 5 * es.length, 0⟩, lastCE es none, none⟩
      = ([], ⟨⟨rest, 5 * es.length + 1, 1⟩, lastCE es none, some (.unexpectedId tag)⟩) := by
    simp [drive, next_badid tag rest _ _ hdone hdent]
  rw [h2] at h
  unfold openEntries
  rw [h]
  refine ⟨by simp, rfl, ⟨"error reading dir entries: expected dir entry ID 'DENT', but got '", "'", rfl⟩, ?_⟩
  exact next_sticky_err _ rfl

theorem c7_witness :
    ("FAIL" : String).length = 4 ∧
    (drive 2 (openEntries (encodeDents [⟨"f", 4, 10, 7⟩] ++ .octet "FAIL" :: []))).1
      = [⟨"f", 4, 10, 7⟩] ∧
    ((drive 2 (openEntries (encodeDents [⟨"f", 4, 10, 7⟩] ++ .octet "FAIL" :: []))).2).Err
      = some (.unexpectedId "FAIL") := by
  have h := c7_malformed_tag_aborts [⟨"f", 4, 10, 7⟩] "FAIL" []
    (by decide) (by decide) (by decide)
  exact ⟨by decide, h.1, h.2.1⟩

/-- Claim C8: driving one decoder iteration to termination with `Next` calls
closes the underlying source exactly once, whatever the stream contents
(normal DONE termination, transport error, or protocol error). -/
theorem c8_close_exactly_once (toks : List Tok) :
    ((drive (toks.length + 1) (openEntries toks)).2).scanner.closes = 1 :=
  drive_closes toks.length (openEntries toks) rfl rfl (Nat.le_refl _)

/-! ## Go `path` package: `Clean`, `Dir`, `Base`

`CachingDeviceClient.Stat` computes `path.Dir(name)` and `path.Base(name)`.
These are translated from the Go standard library `path` package, working on
`List Char` (`lazybuf` becomes an output list, its write index `w` the list
length). `cleanLoop` carries a fuel argument so it stays structurally
recursive; every call site passes fuel larger than the input length, and each
loop iteration consumes at least one character. -/

/-- The backtracking loop of `Clean`'s `..` handling: starting from write
index `w`, step left while `w > dotdot` and the buffered character at `w` is
not a slash; returns the final write index. -/
def backtrackW (out : List Char) (dotdot : Nat) : Nat → Nat
  | 0 => 0
  | w + 1 =>
    if dotdot < w + 1 ∧ out.getD (w + 1) ' ' ≠ '/' then backtrackW out dotdot w
    else w + 1

/-- The main loop of Go `path.Clean`, one constructor case per `switch`
case: skip empty elements and `.` elements, resolve `..` by backtracking (or
appending `..` when not rooted and nothing can be unwound), and copy real
elements with a separating slash. -/
def cleanLoop (rooted : Bool) : Nat → List Char → List Char → Nat → List Char
  | 0, _, out, _ => out
  | _ + 1, [], out, _ => out
  | fuel + 1, c :: rest, out, dotdot =>
    if c = '/' then
      cleanLoop rooted fuel rest out dotdot
    else if c = '.' ∧ (rest = [] ∨ rest.head? = some '/') then
      cleanLoop rooted fuel rest out dotdot
    else if c = '.' ∧ rest.head? = some '.' ∧ (rest.tail = [] ∨ rest.tail.head? = some '/') then
      if dotdot < out.length then
        cleanLoop rooted fuel rest.tail (out.take (backtrackW out dotdot (out.length - 1))) dotdot
      else if rooted = false then
        let out1 := if 0 < out.length then out ++ ['/'] else out
        let out2 := out1 ++ ['.', '.']
        cleanLoop rooted fuel rest.tail out2 out2.length
      else
        cleanLoop rooted fuel rest.tail out dotdot
    else
      let out1 := if (rooted = true ∧ out.length ≠ 1) ∨ (rooted = false ∧ out.length ≠ 0)
        then out ++ ['/'] else out
      cleanLoop rooted fuel ((c :: rest).dropWhile (fun x => x ≠ '/'))
        (out1 ++ (c :: rest).takeWhile (fun x => x ≠ '/')) dotdot

/-- Go `path.Clean`. An empty path cleans to `.`; a rooted path starts the
output buffer with `/` and scanning at index 1; an empty output becomes
`.`. -/
def goPathClean (p : String) : String :=
  if p = "" then "."
  else
    let l := p.data
    let rooted : Bool := l.head? == some '/'
    let start := if rooted then l.tail else l
    let out0 : List Char := if rooted then ['/'] else []
    let dotdot0 : Nat := if rooted then 1 else 0
    let res := cleanLoop rooted (start.length + 1) start out0 dotdot0
    if res.length = 0 then "." else ⟨res⟩

/-- Go `path.Base`: empty path gives `.`; strip trailing slashes; keep the
part after the last slash; all-slashes gives `/`. -/
def goPathBase (p : String) : String :=
  if p = "" then "."
  else
    let l1 := (p.data.reverse.dropWhile (fun c => c = '/')).reverse
    let l2 := (l1.reverse.takeWhile (fun c => c ≠ '/')).reverse
    if l2 = [] then "/" else ⟨l2⟩

/-- Go `path.Dir`: everything up to and including the final slash
(`path.Split`), then `Clean` of that. -/
def goPathDir (p : String) : String :=
  let dirPart : List Char := (p.data.reverse.dropWhile (fun c => c ≠ '/')).reverse
  goPathClean ⟨dirPart⟩

example : goPathDir "a/a" = "a" := by decide
example : goPathBase "a/a" = "a" := by decide
example : goPathDir "/d/a" = "/d" := by decide
example : goPathBase "/d/a" = "a" := by decide
example : goPathDir "/" = "/" := by decide
example : goPathBase "/" = "/" := by decide
example : goPathDir "" = "." := by decide
example : goPathBase "" = "." := by decide
example : goPathClean "/../a" = "/a" := by decide
example : goPathClean "a/.." = "." := by decide
example : goPathClean "a/b/../../../c" = "../c" := by decide
example : goPathDir "/d/" = "/d" := by decide

/-! ## Caching device client: `Stat`

`CachingDeviceClient.Stat` consults a TTL cache of directory listings.  The
cache is modelled by its observable behaviour at the moment of the call: a
function from directory path to `Option CachedDirEntries`, `some` meaning a
fresh (unexpired) cached listing.  The underlying `DeviceClient.Stat` is
likewise a function from path to result.  Every externally visible
interaction (cache lookup, `log.CacheUsed`, underlying device call) is
recorded in an effect list so that "never calls the underlying client" is a
statement about the effect list. -/

/-- Error codes distinguished by the goadb error utilities. -/
inductive ErrCode where
  | DeviceNotFound
  | FileNoExist
  | OtherErr
deriving DecidableEq

/-- A goadb error: a code plus message text. -/
structure AdbError where
  code : ErrCode
  msg : String
deriving DecidableEq

/-- `CachedDirEntries` from the source: the listing in order plus a by-name
map built by inserting each entry under its name (later entries
overwrite). -/
structure CachedDirEntries where
  inOrder : List DirEntry
  byName : String → Option DirEntry

/-- `NewCachedDirEntries` from the source. -/
def NewCachedDirEntries (entries : List DirEntry) : CachedDirEntries :=
  { inOrder := entries
    byName := entries.foldl (fun m e => fun n => if n = e.name then some e else m n)
      (fun _ => none) }

/-- Observable effects of one `CachingDeviceClient.Stat` call. -/
inductive StatEffect where
  | cacheGet (dir : String)
  | logCacheUsed (hit : Bool)
  | deviceStat (path : String)
deriving DecidableEq

/-- The collaborators of one `CachingDeviceClient.Stat` call: the cache's
`Get` (with `some` = found and fresh) and the wrapped client's `Stat`. -/
structure StatModel where
  cache : String → Option CachedDirEntries
  devStat : String → Except AdbError DirEntry

/-- The "name does not exist in cached directory listing" error built by
`CachingDeviceClient.Stat`; it wraps `adb.FileNoExistError` (code
`FileNoExist`). -/
def statNoExistError (base : String) : AdbError :=
  ⟨.FileNoExist, "name '" ++ base ++ "' does not exist in cached directory listing"⟩

/-- `CachingDeviceClient.Stat`, translated clause by clause: compute
`path.Dir` and `path.Base`; if they are equal, go straight to the wrapped
client (the root is never cached); otherwise ask the cache for the parent
listing; on a hit, answer from the listing's name map (absence is a
`FileNoExist` error); on a miss, fall through to the wrapped client. -/
def cachingStat (m : StatModel) (name : String) :
    Except AdbError DirEntry × List StatEffect :=
  let dir := goPathDir name
  let base := goPathBase name
  if dir = base then
    (m.devStat name, [.deviceStat name])
  else
    match m.cache dir with
    | some entries =>
      match entries.byName base with
      | some entry => (.ok entry, [.cacheGet dir, .logCacheUsed true])
      | none => (.error (statNoExistError base), [.cacheGet dir, .logCacheUsed true])
    | none =>
      (m.devStat name, [.cacheGet dir, .logCacheUsed false, .deviceStat name])

/-- A cache holding a fresh listing for directory `a` (containing one entry
also named `a`), over a device that answers every stat. -/
def exampleCacheAA : StatModel :=
  { cache := fun d => if d = "a" then some (NewCachedDirEntries [⟨"a", 0, 0, 0⟩]) else none
    devStat := fun p => .ok ⟨p, 0, 0, 0⟩ }

/-- A cache holding a fresh listing for directory `/d` containing entries
`a` and `b`. -/
def exampleCacheD : StatModel :=
  { cache := fun d =>
      if d = "/d" then some (NewCachedDirEntries [⟨"a", 1, 2, 3⟩, ⟨"b", 4, 5, 6⟩]) else none
    devStat := fun p => .ok ⟨p, 0, 0, 0⟩ }

/-- Claim C3 counterexample: for the path `a/a`, the parent directory
(`path.Dir "a/a" = "a"`) has a fresh cached listing, yet `Stat` calls the
underlying device client, because the code's bypass test compares `Dir` with
`Base` (both `"a"`), not with the path itself. -/
theorem c3_counterexample_dir_eq_base_bypass :
    (exampleCacheAA.cache (goPathDir "a/a")).isSome = true ∧
    StatEffect.deviceStat "a/a" ∈ (cachingStat exampleCacheAA "a/a").2 := by
  decide

/-- Claim C3 (amended): for every path whose `path.Dir` differs from its
`path.Base` (the bypass applies to all paths where they coincide, e.g. the
root), if the parent directory has a fresh cached listing then `Stat` never
calls the underlying device client: a name present in the listing's map is
answered from the cache, and an absent name yields the `FileNoExist`-kind
"does not exist" error without re-verifying against the device. -/
theorem c3_amended_cached_parent_authoritative (m : StatModel) (name : String)
    (es : CachedDirEntries)
    (h1 : goPathDir name ≠ goPathBase name)
    (h2 : m.cache (goPathDir name) = some es) :
    (∀ p, StatEffect.deviceStat p ∉ (cachingStat m name).2) ∧
    (∀ e, es.byName (goPathBase name) = some e → (cachingStat m name).1 = .ok e) ∧
    (es.byName (goPathBase name) = none →
      (cachingStat m name).1 = .error (statNoExistError (goPathBase name)) ∧
      (statNoExistError (goPathBase name)).code = .FileNoExist) := by
  unfold cachingStat
  simp only [if_neg h1, h2]
  cases hb : es.byName (goPathBase name) with
  | none => simp [hb, statNoExistError]
  | some e => simp [hb]

theorem c3_amended_witness :
    (∀ p, StatEffect.deviceStat p ∉ (cachingStat exampleCacheD "/d/a").2) ∧
    (cachingStat exampleCacheD "/d/a").1 = .ok ⟨"a", 1, 2, 3⟩ := by
  have h := c3_amended_cached_parent_authoritative exampleCacheD "/d/a"
    (NewCachedDirEntries [⟨"a", 1, 2, 3⟩, ⟨"b", 4, 5, 6⟩]) (by decide) rfl
  exact ⟨h.1, h.2.1 ⟨"a", 1, 2, 3⟩ rfl⟩

/-- Claim C4 counterexample: at the path `a/a` the cache is bypassed (the
effect trace is exactly one direct underlying `Stat` call, no cache lookup),
yet `path.Dir "a/a" = "a"` is not the path itself, refuting "bypasses if and
only if the path's parent equals the path". -/
theorem c4_counterexample_nonroot_bypass :
    (cachingStat exampleCacheAA "a/a").2 = [StatEffect.deviceStat "a/a"] ∧
    goPathDir "a/a" ≠ "a/a" := by
  decide

/-- Claim C4 (amended): `Stat` bypasses the cache entirely — the effect
trace is exactly one direct underlying call, with no cache lookup — if and
only if `path.Dir` of the path equals `path.Base` of the path (which holds
for the root `/`, for `""` and `.`, and also for paths like `a/a`). -/
theorem c4_amended_bypass_iff_dir_eq_base (m : StatModel) (name : String) :
    (cachingStat m name).2 = [StatEffect.deviceStat name]
      ↔ goPathDir name = goPathBase name := by
  unfold cachingStat
  by_cases h : goPathDir name = goPathBase name
  · simp [h]
  · simp only [if_neg h]
    cases hc : m.cache (goPathDir name) with
    | none => simp [h]
    | some es =>
      cases hb : es.byName (goPathBase name) with
      | none => simp [hb, h]
      | some e => simp [hb, h]

/-! ## goadb device client: disconnect detection

`goadbDeviceClient` wraps `adb.Device`; on `OpenRead`, `Stat` and
`ListDirEntries` it tests the returned error with
`adb.HasErrCode(err, adb.DeviceNotFound)` and, if so, runs
`handleDeviceNotFound`, which invokes the registered disconnect callback and
returns the error unchanged.  Each operation is modelled as a function of
the underlying `adb.Device` call's result; the second component of the
result counts how many times the disconnect callback ran during the call
(the callback is assumed registered, i.e. non-nil, as the constructor
installs one). -/

/-- `adb.HasErrCode`: a nil error has no code; otherwise compare codes. -/
def HasErrCode (err : Option AdbError) (code : ErrCode) : Bool :=
  match err with
  | some e => e.code == code
  | none => false

/-- The error half of a Go `(value, error)` result. -/
def errOf {α : Type} : Except AdbError α → Option AdbError
  | .error e => some e
  | .ok _ => none

/-- `goadbDeviceClient.OpenRead`: on a DeviceNotFound error, invoke the
disconnect callback once and return the error unchanged. -/
def goadbOpenRead {α : Type} (res : Except AdbError α) : Except AdbError α × Nat :=
  if HasErrCode (errOf res) .DeviceNotFound then (res, 1) else (res, 0)

/-- `goadbDeviceClient.Stat`: same DeviceNotFound handling as OpenRead. -/
def goadbStat {α : Type} (res : Except AdbError α) : Except AdbError α × Nat :=
  if HasErrCode (errOf res) .DeviceNotFound then (res, 1) else (res, 0)

/-- `goadbDeviceClient.ListDirEntries`: on an error, invoke the callback if
it is DeviceNotFound and propagate the error; on success return
`entries.ReadAll()` (a further read, passed in abstractly) with no
callback. -/
def goadbListDirEntries {α : Type} (res : Except AdbError α)
    (readAllRes : Except AdbError (List DirEntry)) :
    Except AdbError (List DirEntry) × Nat :=
  match res with
  | .error e =>
    if HasErrCode (some e) .DeviceNotFound then (.error e, 1) else (.error e, 0)
  | .ok _ => (readAllRes, 0)

/-- `goadbDeviceClient.OpenWrite`: delegates directly to
`Device.OpenWrite` with no error-code inspection at all. -/
def goadbOpenWrite {α : Type} (res : Except AdbError α) : Except AdbError α × Nat :=
  (res, 0)

/-- The DeviceNotFound error condition. -/
def devNotFoundErr : AdbError := ⟨.DeviceNotFound, "DeviceNotFound"⟩

/-- Claim C5 (code behaviour at the failing input): when the underlying
call fails with the device-not-found condition, `OpenRead`, `Stat` and
`ListDirEntries` invoke the disconnect callback exactly once and return the
original error unchanged — but `OpenWrite` never inspects the error and
invokes the callback zero times, contradicting the claim (and the source's
own comment that it detects disconnection on any operation). -/
theorem c5_openwrite_missing_disconnect_check :
    goadbOpenWrite (Except.error devNotFoundErr : Except AdbError Nat)
      = (.error devNotFoundErr, 0) ∧
    goadbOpenRead (Except.error devNotFoundErr : Except AdbError Nat)
      = (.error devNotFoundErr, 1) ∧
    goadbStat (Except.error devNotFoundErr : Except AdbError DirEntry)
      = (.error devNotFoundErr, 1) ∧
    goadbListDirEntries (Except.error devNotFoundErr : Except AdbError Nat) (.ok [])
      = (.error devNotFoundErr, 1) :=
  ⟨rfl, rfl, rfl, rfl⟩

/-! ## Caching device client: `OpenWrite` and `onCloseWriter` -/

/-- The remote write sink obtained from the wrapped client, modelled by the
result its `Close` will produce. -/
structure WriteCloser where
  closeResult : Option AdbError

/-- Observable events during `onCloseWriter.Close`. -/
inductive CEvent where
  | closedUnderlying
  | removedEventually (dir : String)
deriving DecidableEq

/-- `onCloseWriter` from the source: the wrapped writer plus the `onClosed`
closure, which is always `func() { c.Cache.RemoveEventually(path.Dir(name)) }`
and is therefore represented by its target directory key. -/
structure OnCloseWriter where
  wrapped : WriteCloser
  onClosedDir : String

/-- `CachingDeviceClient.OpenWrite`: obtain the sink from the wrapped
client, then wrap it so closing it later schedules deferred removal of the
parent directory's cache entry; the wrapper is returned together with the
wrapped client's error, unchanged. -/
def cachingOpenWrite (name : String) (w : WriteCloser) (uerr : Option AdbError) :
    OnCloseWriter × Option AdbError :=
  ({ wrapped := w, onClosedDir := goPathDir name }, uerr)

/-- `onCloseWriter.Close`: close the wrapped writer first, then
unconditionally run `onClosed`, and return the wrapped close's error. -/
def OnCloseWriter.Close (w : OnCloseWriter) : Option AdbError × List CEvent :=
  (w.wrapped.closeResult, [.closedUnderlying, .removedEventually w.onClosedDir])

/-- Claim C6: for every write handle from `OpenWrite`, `Close` first closes
the underlying remote sink and then — unconditionally, also when the
underlying close failed — schedules deferred removal of the cache entry for
the written path's parent directory, and returns the underlying close's
error. -/
theorem c6_close_then_invalidate_parent (name : String) (w : WriteCloser)
    (uerr : Option AdbError) :
    (cachingOpenWrite name w uerr).2 = uerr ∧
    OnCloseWriter.Close (cachingOpenWrite name w uerr).1
      = (w.closeResult, [.closedUnderlying, .removedEventually (goPathDir name)]) :=
  ⟨rfl, rfl⟩

/-! ## LogEntry: write-once fields

`LogEntry` methods panic when their field is already set.  Panics are
modelled as `Except.error` carrying the panic message; the `startTime` and
`trace` fields (wall-clock and external tracing) are omitted.  `Result`
receives the already-formatted message and `Status` the rendered
`fuse.Status` string (formatting and `fuse.Status.String` are external). -/

structure LogEntry where
  name : String
  path : String
  args : String
  err : Option String
  result : String
  status : String
  cacheUsed : Bool
  cacheHit : Bool
deriving DecidableEq

/-- Go `%s` of a possibly-nil error, for panic messages. -/
def optErrText : Option String → String
  | some s => s
  | none => "<nil>"

/-- `LogEntry.Error`: panics if `err` is already non-nil. -/
def LogEntry.Error (r : LogEntry) (e : Option String) : Except String LogEntry :=
  if r.err.isSome then
    .error ("err already set to '" ++ optErrText r.err ++ "', can't set to '"
      ++ optErrText e ++ "'")
  else .ok { r with err := e }

/-- `LogEntry.Result`: panics if `result` is already non-empty. -/
def LogEntry.Result (r : LogEntry) (msg : String) : Except String LogEntry :=
  if r.result ≠ "" then
    .error ("result already set to '" ++ r.result ++ "', can't set to '" ++ msg ++ "'")
  else .ok { r with result := msg }

/-- `LogEntry.Status`: panics if `status` is already non-empty. -/
def LogEntry.Status (r : LogEntry) (statusStr : String) : Except String LogEntry :=
  if r.status ≠ "" then
    .error ("status already set to '" ++ r.status ++ "', can't set to '" ++ statusStr ++ "'")
  else .ok { r with status := statusStr }

/-- `LogEntry.CacheUsed`: panics if cache use was already reported. -/
def LogEntry.CacheUsed (r : LogEntry) (hit : Bool) : Except String LogEntry :=
  if r.cacheUsed then .error "cache use already reported"
  else .ok { r with cacheUsed := true, cacheHit := hit }

/-- Whether a modelled call panicked. -/
def isPanic {α : Type} : Except String α → Bool
  | .error _ => true
  | .ok _ => false

/-- Claim C9: each of the error, result, status and cache-used fields of a
`LogEntry` may be set at most once: a call on an entry whose corresponding
field is already set panics instead of overwriting or returning normally,
and a call on an unset field succeeds and records the value. -/
theorem c9_logentry_write_once (r : LogEntry) (e : Option String)
    (msg statusStr : String) (hit : Bool) :
    (r.err.isSome = true → isPanic (r.Error e) = true) ∧
    (r.err = none → r.Error e = .ok { r with err := e }) ∧
    (r.result ≠ "" → isPanic (r.Result msg) = true) ∧
    (r.result = "" → r.Result msg = .ok { r with result := msg }) ∧
    (r.status ≠ "" → isPanic (r.Status statusStr) = true) ∧
    (r.status = "" → r.Status statusStr = .ok { r with status := statusStr }) ∧
    (r.cacheUsed = true → isPanic (r.CacheUsed hit) = true) ∧
    (r.cacheUsed = false → r.CacheUsed hit = .ok { r with cacheUsed := true, cacheHit := hit }) := by
  refine ⟨?_, ?_, ?_, ?_, ?_, ?_, ?_, ?_⟩ <;> intro h <;>
    simp [LogEntry.Error, LogEntry.Result, LogEntry.Status, LogEntry.CacheUsed, isPanic, h]

/-- An entry with all four fields already set. -/
def logSetEntry : LogEntry := ⟨"op", "/p", "", some "boom", "res", "OK", true, true⟩

/-- A freshly started entry with no field set. -/
def logFreshEntry : LogEntry := ⟨"op", "/p", "", none, "", "", false, false⟩

theorem c9_witness :
    isPanic (logSetEntry.Error (some "x")) = true ∧
    logFreshEntry.Error (some "x") = .ok { logFreshEntry with err := some "x" } ∧
    isPanic (logSetEntry.Result "r") = true ∧
    logFreshEntry.Result "r" = .ok { logFreshEntry with result := "r" } ∧
    isPanic (logSetEntry.Status "S") = true ∧
    logFreshEntry.Status "S" = .ok { logFreshEntry with status := "S" } ∧
    isPanic (logSetEntry.CacheUsed false) = true ∧
    logFreshEntry.CacheUsed false
      = .ok { logFreshEntry with cacheUsed := true, cacheHit := false } := by
  have hs := c9_logentry_write_once logSetEntry (some "x") "r" "S" false
  have hu := c9_logentry_write_once logFreshEntry (some "x") "r" "S" false
  exact ⟨hs.1 rfl, hu.2.1 rfl, hs.2.2.1 (by decide), hu.2.2.2.1 rfl,
    hs.2.2.2.2.1 (by decide), hu.2.2.2.2.2.1 rfl,
    hs.2.2.2.2.2.2.1 rfl, hu.2.2.2.2.2.2.2 rfl⟩

/-! ## Unmount on disconnect (adbfs.go)

`handleDeviceDisconnected` spawns a goroutine that checks
`unmounted.Value()` and, if false, calls `unmountServer`, which panics if
the server does not exist and otherwise unmounts only when
`unmounted.CompareAndSwap(false, true)` succeeds.  Concurrency is modelled
as a small-step interleaving system: each disconnect notification is a
caller with a program counter, and a schedule is an arbitrary list of caller
indices; each step executes one atomic instruction of one caller.  The
shared state is the `unmounted` flag, plus logs of the callers whose CAS
succeeded and of the callers that executed `server.Unmount()`. -/

/-- Modelled from the spec: `fs.AtomicBool.CompareAndSwap` is not among the
provided sources; per the spec the unmount guard is "an atomically-checked
compare-and-swap", so the whole CAS is a single atomic step taking the flag
from `false` to `true` and reporting whether this caller performed the
swap. -/
def atomicCAS (flag : Bool) : Bool × Bool :=
  if flag = false then (true, true) else (flag, false)

/-- Program counter of one disconnect notification: about to read the flag
(`handleDeviceDisconnected`'s `!unmounted.Value()` check), about to CAS
(`unmountServer`'s guard), about to perform `server.Unmount()`, or
finished. -/
inductive HPc where
  | readFlag
  | casStep
  | unmountStep
  | done
deriving DecidableEq

/-- Shared state of the unmount race: whether the server exists, the
`unmounted` flag, each caller's program counter, the callers whose CAS
succeeded, the callers that executed the unmount, and the panic count (the
`server == nil` guard in `unmountServer`). -/
structure USys where
  serverPresent : Bool
  flag : Bool
  pcs : List HPc
  casLog : List Nat
  unmounts : List Nat
  panics : Nat


/-- One atomic step of caller `i` (no-op for an unknown or finished
caller). -/
def ustep (s : USys) (i : Nat) : USys :=
  match s.pcs[i]? with
  | none => s
  | some pc =>
    match pc with
    | .readFlag =>
      if s.flag then { s with pcs := s.pcs.set i .done }
      else { s with pcs := s.pcs.set i .casStep }
    | .casStep =>
      if s.serverPresent = false then
        { s with pcs := s.pcs.set i .done, panics := s.panics + 1 }
      else
        let cas := atomicCAS s.flag
        if cas.2 then
          { s with flag := cas.1, casLog := s.casLog ++ [i], pcs := s.pcs.set i .unmountStep }
        else
          { s with flag := cas.1, pcs := s.pcs.set i .done }
    | .unmountStep =>
      { s with unmounts := s.unmounts ++ [i], pcs := s.pcs.set i .done }
    | .done => s

/-- Run a schedule: execute the callers' atomic steps in the given
interleaving order. -/
def urun (s : USys) (sched : List Nat) : USys :=
  sched.foldl ustep s

/-- Initial state for `n` concurrent disconnect notifications racing over a
live server with the flag still false. -/
def uinit (n : Nat) : USys :=
  ⟨true, false, List.replicate n .readFlag, [], [], 0⟩

/-- The inductive invariant of the unmount race: before the flag is set
nothing has been logged and no caller is past its CAS; after the flag is set
exactly one caller won the CAS, and that caller alone performs the unmount,
exactly once. -/
def UInv (s : USys) : Prop :=
  s.serverPresent = true ∧ s.panics = 0 ∧
  ((s.flag = false ∧ s.casLog = [] ∧ s.unmounts = [] ∧
      ∀ pc ∈ s.pcs, pc = HPc.readFlag ∨ pc = HPc.casStep) ∨
   (s.flag = true ∧ ∃ j, s.casLog = [j] ∧
      ((s.pcs[j]? = some HPc.unmountStep ∧ s.unmounts = []) ∨
       (s.pcs[j]? = some HPc.done ∧ s.unmounts = [j])) ∧
      ∀ i, s.pcs[i]? = some HPc.unmountStep → i = j))

theorem uinv_init (n : Nat) : UInv (uinit n) := by
  refine ⟨rfl, rfl, Or.inl ⟨rfl, rfl, rfl, ?_⟩⟩
  intro pc hpc
  left
  exact List.eq_of_mem_replicate hpc

theorem uinv_step (s : USys) (i : Nat) (h : UInv s) : UInv (ustep s i) := by
  obtain ⟨hsrv, hpan, hcase⟩ := h
  cases hget : s.pcs[i]? with
  | none =>
    have hs : ustep s i = s := by simp [ustep, hget]
    rw [hs]
    exact ⟨hsrv, hpan, hcase⟩
  | some pc =>
    have hlt : i < s.pcs.length := (List.getElem?_eq_some.mp hget).1
    cases pc with
    | readFlag =>
      cases hfl : s.flag with
      | false =>
        have hs : ustep s i = { s with pcs := s.pcs.set i .casStep } := by
          simp [ustep, hget, hfl]
        rw [hs]
        rcases hcase with ⟨hf, hcl, hum, hall⟩ | ⟨hf, hrest⟩
        · refine ⟨hsrv, hpan, Or.inl ⟨hf, hcl, hum, ?_⟩⟩
          intro pc hpc
          rcases List.mem_or_eq_of_mem_set hpc with h1 | h1
          · exact hall pc h1
          · right; exact h1
        · rw [hfl] at hf
          exact absurd hf (by simp)
      | true =>
        have hs : ustep s i = { s with pcs := s.pcs.set i .done } := by
          simp [ustep, hget, hfl]
        rw [hs]
        rcases hcase with ⟨hf, hcl, hum, hall⟩ | ⟨hf, j, hcl, hj, huniq⟩
        · rw [hfl] at hf
          exact absurd hf (by simp)
        · have hne : i ≠ j := by
            intro he
            rw [← he, hget] at hj
            rcases hj with ⟨hj1, hj2⟩ | ⟨hj1, hj2⟩ <;> exact absurd hj1 (by simp)
          refine ⟨hsrv, hpan, Or.inr ⟨hf, j, hcl, ?_, ?_⟩⟩
          · show (s.pcs.set i HPc.done)[j]? = some HPc.unmountStep ∧ s.unmounts = [] ∨
              (s.pcs.set i HPc.done)[j]? = some HPc.done ∧ s.unmounts = [j]
            rw [List.getElem?_set_ne hne]
            exact hj
          · intro k hk
            have hk2 : (s.pcs.set i HPc.done)[k]? = some HPc.unmountStep := hk
            by_cases hki : k = i
            · subst hki
              rw [List.getElem?_set_eq_of_lt _ hlt] at hk2
              exact absurd hk2 (by simp)
            · rw [List.getElem?_set_ne (fun he => hki he.symm)] at hk2
              exact huniq k hk2
    | casStep =>
      cases hfl : s.flag with
      | false =>
        have hs : ustep s i =
            { s with
              flag := true
              casLog := s.casLog ++ [i]
              pcs := s.pcs.set i .unmountStep } := by
          simp [ustep, hget, hfl, hsrv, atomicCAS]
        rw [hs]
        rcases hcase with ⟨hf, hcl, hum, hall⟩ | ⟨hf, hrest⟩
        · refine ⟨hsrv, hpan, Or.inr ⟨rfl, i, ?_, ?_, ?_⟩⟩
          · show s.casLog ++ [i] = [i]
            rw [hcl]
            rfl
          · left
            exact ⟨List.getElem?_set_eq_of_lt _ hlt, hum⟩
          · intro k hk
            have hk2 : (s.pcs.set i HPc.unmountStep)[k]? = some HPc.unmountStep := hk
            by_cases hki : k = i
            · exact hki
            · rw [List.getElem?_set_ne (fun he => hki he.symm)] at hk2
              rcases hall _ (List.getElem?_mem hk2) with h1 | h1 <;> exact absurd h1 (by simp)
        · rw [hfl] at hf
          exact absurd hf (by simp)
      | true =>
        have hs : ustep s i = { s with flag := true, pcs := s.pcs.set i .done } := by
          simp [ustep, hget, hfl, hsrv, atomicCAS]
        rw [hs]
        rcases hcase with ⟨hf, hcl, hum, hall⟩ | ⟨hf, j, hcl, hj, huniq⟩
        · rw [hfl] at hf
          exact absurd hf (by simp)
        · have hne : i ≠ j := by
            intro he
            rw [← he, hget] at hj
            rcases hj with ⟨hj1, hj2⟩ | ⟨hj1, hj2⟩ <;> exact absurd hj1 (by simp)
          refine ⟨hsrv, hpan, Or.inr ⟨rfl, j, hcl, ?_, ?_⟩⟩
          · show (s.pcs.set i HPc.done)[j]? = some HPc.unmountStep ∧ s.unmounts = [] ∨
              (s.pcs.set i HPc.done)[j]? = some HPc.done ∧ s.unmounts = [j]
            rw [List.getElem?_set_ne hne]
            exact hj
          · intro k hk
            have hk2 : (s.pcs.set i HPc.done)[k]? = some HPc.unmountStep := hk
            by_cases hki : k = i
            · subst hki
              rw [List.getElem?_set_eq_of_lt _ hlt] at hk2
              exact absurd hk2 (by simp)
            · rw [List.getElem?_set_ne (fun he => hki he.symm)] at hk2
              exact huniq k hk2
    | unmountStep =>
      have hs : ustep s i = { s with unmounts := s.unmounts ++ [i], pcs := s.pcs.set i .done } := by
        simp [ustep, hget]
      rw [hs]
      rcases hcase with ⟨hf, hcl, hum, hall⟩ | ⟨hf, j, hcl, hj, huniq⟩
      · rcases hall _ (List.getElem?_mem hget) with h1 | h1 <;> exact absurd h1 (by simp)
      · have hij : i = j := huniq i hget
        subst hij
        rcases hj with ⟨hj1, hum⟩ | ⟨hj1, hum2⟩
        · refine ⟨hsrv, hpan, Or.inr ⟨hf, i, hcl, ?_, ?_⟩⟩
          · right
            refine ⟨List.getElem?_set_eq_of_lt _ hlt, ?_⟩
            show s.unmounts ++ [i] = [i]
            rw [hum]
            rfl
          · intro k hk
            have hk2 : (s.pcs.set i HPc.done)[k]? = some HPc.unmountStep := hk
            by_cases hki : k = i
            · exact hki
            · rw [List.getElem?_set_ne (fun he => hki he.symm)] at hk2
              exact huniq k hk2
        · rw [hget] at hj1
          exact absurd hj1 (by simp)
    | done =>
      have hs : ustep s i = s := by simp [ustep, hget]
      rw [hs]
      exact ⟨hsrv, hpan, hcase⟩

theorem uinv_run (sched : List Nat) :
    ∀ (s : USys), UInv s → UInv (urun s sched) := by
  induction sched with
  | nil => intro s h; exact h
  | cons i rest ih =>
    intro s h
    exact ih (ustep s i) (uinv_step s i h)

theorem ustep_pcs_length (s : USys) (i : Nat) : (ustep s i).pcs.length = s.pcs.length := by
  unfold ustep
  cases hg : s.pcs[i]? with
  | none => rfl
  | some pc =>
    cases pc <;> dsimp only <;> (try split) <;> (try split) <;> simp [List.length_set]

theorem urun_pcs_length (sched : List Nat) :
    ∀ (s : USys), (urun s sched).pcs.length = s.pcs.length := by
  induction sched with
  | nil => intro s; rfl
  | cons i rest ih =>
    intro s
    have h1 : urun s (i :: rest) = urun (ustep s i) rest := rfl
    rw [h1, ih, ustep_pcs_length]

/-- Claim C10: for every number of racing disconnect notifications and
every interleaving of their atomic steps, the unmount action runs at most
once, only ever by the caller whose compare-and-swap from false to true
succeeded (of which there is at most one), without panicking; and whenever
the schedule has run at least one caller to completion the unmount has run
exactly once. -/
theorem c10_unmount_exactly_once (n : Nat) (sched : List Nat) :
    (urun (uinit n) sched).unmounts.length ≤ 1 ∧
    (urun (uinit n) sched).casLog.length ≤ 1 ∧
    (∀ i ∈ (urun (uinit n) sched).unmounts, i ∈ (urun (uinit n) sched).casLog) ∧
    (urun (uinit n) sched).panics = 0 ∧
    ((∀ pc ∈ (urun (uinit n) sched).pcs, pc = HPc.done) → 1 ≤ n →
      (urun (uinit n) sched).unmounts.length = 1) := by
  have h := uinv_run sched (uinit n) (uinv_init n)
  obtain ⟨hsrv, hpan, hcase⟩ := h
  have hlen : (urun (uinit n) sched).pcs.length = n := by
    rw [urun_pcs_length]
    simp [uinit]
  rcases hcase with ⟨hf, hcl, hum, hall⟩ | ⟨hf, j, hcl, hj, _⟩
  · refine ⟨by simp [hum], by simp [hcl], by simp [hum], hpan, ?_⟩
    intro hdone hn
    have hlt0 : 0 < (urun (uinit n) sched).pcs.length := by omega
    obtain ⟨pc0, hpc0⟩ : ∃ pc, (urun (uinit n) sched).pcs[0]? = some pc :=
      ⟨_, List.getElem?_eq_getElem hlt0⟩
    have h1 := hdone pc0 (List.getElem?_mem hpc0)
    have h2 := hall pc0 (List.getElem?_mem hpc0)
    rw [h1] at h2
    rcases h2 with h2 | h2 <;> exact absurd h2 (by simp)
  · rcases hj with ⟨hj1, hum⟩ | ⟨hj1, hum⟩
    · refine ⟨by simp [hum], by simp [hcl], by simp [hum], hpan, ?_⟩
      intro hdone _
      have h1 := hdone HPc.unmountStep (List.getElem?_mem hj1)
      exact absurd h1 (by simp)
    · exact ⟨by simp [hum], by simp [hcl], by simp [hum, hcl], hpan,
        fun _ _ => by simp [hum]⟩

theorem c10_witness :
    (urun (uinit 2) [0, 1, 0, 1, 0]).unmounts.length = 1 :=
  (c10_unmount_exactly_once 2 [0, 1, 0, 1, 0]).2.2.2.2 (by decide) (by decide)

end Adbfs
